import Mathlib

/-!
Verification of the tic-tac-toe game library: a shallow embedding of the
`tic_tac_toe.logic` model (`models.py`, `validators.py`) and the player layer,
with theorems settling the specification's claims about it.

Python strings are modelled as `List Char`, Python exceptions as the
`PyError` inductive together with `Except`, and the regular expressions used
by the source (all of a very restricted shape) are modelled by executable
functions whose semantics match Python's `re` on those patterns.
-/

/-- The two players' symbols, `Mark` in `models.py` (a `str` enum whose
values are "X" and "O", declared in the order CROSS, NAUGHT). -/
inductive Mark
  | CROSS
  | NAUGHT
deriving DecidableEq, Repr

/-- `Mark.other`: the remaining member of `Mark`. -/
def Mark.other : Mark → Mark
  | .NAUGHT => .CROSS
  | .CROSS => .NAUGHT

/-- The character value of a `Mark` (the `str` payload of the Python enum). -/
def Mark.char : Mark → Char
  | .CROSS => 'X'
  | .NAUGHT => 'O'

/-- Iteration order of `for mark in Mark` in Python: declaration order. -/
def markMembers : List Mark := [.CROSS, .NAUGHT]

/-- The distinguishable Python exception classes raised by the modelled code:
`ValueError` (raised by `validate_grid`), `InvalidGameState`, `InvalidMove`,
`UnknownGameScore` (from `exceptions.py`), and the built-in `IndexError`
raised by out-of-range string indexing. -/
inductive PyError
  | valueError
  | invalidGameState
  | invalidMove
  | unknownGameScore
  | indexError
deriving DecidableEq, Repr

deriving instance DecidableEq for Except

/-- The `Grid` dataclass: a cell string (its `__post_init__` validation is
modelled separately by `mkGrid`, since Python runs it at construction). -/
structure Grid where
  cells : List Char
deriving DecidableEq, Repr

/-- `Grid.x_count`: `self.cells.count("X")`. -/
def Grid.x_count (g : Grid) : Nat := g.cells.count 'X'

/-- `Grid.o_count`: `self.cells.count("O")`. -/
def Grid.o_count (g : Grid) : Nat := g.cells.count 'O'

/-- `Grid.empty_count`: `self.cells.count(" ")`. -/
def Grid.empty_count (g : Grid) : Nat := g.cells.count ' '

/-- Python's regex class `\s` on ASCII characters: space, tab, newline,
carriage return, vertical tab, form feed.  (Python's `\s` additionally
matches some non-ASCII Unicode whitespace; no claim depends on those.) -/
def isPySpace (c : Char) : Bool :=
  c == ' ' || c == '\t' || c == '\n' || c == '\r' || c == '\x0b' || c == '\x0c'

/-- One character of the class `[\sXO]` used by `validate_grid`. -/
def isGridClassChar (c : Char) : Bool := isPySpace c || c == 'X' || c == 'O'

/-- Semantics of `re.match(r"^[\sXO]{9}$", cells)`: nine class characters
followed by the end of the string, where Python's `$` also matches just
before a single trailing newline. -/
def gridPatternAccepts (cells : List Char) : Bool :=
  (cells.length == 9 && cells.all isGridClassChar) ||
    (cells.length == 10 && (cells.take 9).all isGridClassChar
      && cells.getLast? == some '\n')

/-- `validate_grid` from `validators.py`: raises `ValueError` when the regex
`^[\sXO]{9}$` does not match the cell string. -/
def validate_grid (g : Grid) : Except PyError Unit :=
  if gridPatternAccepts g.cells then .ok () else .error .valueError

/-- Construction of a `Grid` (`Grid(cells)` in Python), which runs
`validate_grid` in `__post_init__`. -/
def mkGrid (cells : List Char) : Except PyError Grid :=
  (validate_grid ⟨cells⟩).map fun _ => ⟨cells⟩

/-- A `Grid` that Python would have allowed to be constructed. -/
def ValidGrid (g : Grid) : Prop := validate_grid g = .ok ()

/-- `WINNING_PATTERNS` from `models.py`, in declaration order:
three rows, three columns, two diagonals. -/
def WINNING_PATTERNS : List (List Char) :=
  [ ['?', '?', '?', '.', '.', '.', '.', '.', '.'],
    ['.', '.', '.', '?', '?', '?', '.', '.', '.'],
    ['.', '.', '.', '.', '.', '.', '?', '?', '?'],
    ['?', '.', '.', '?', '.', '.', '?', '.', '.'],
    ['.', '?', '.', '.', '?', '.', '.', '?', '.'],
    ['.', '.', '?', '.', '.', '?', '.', '.', '?'],
    ['?', '.', '.', '.', '?', '.', '.', '.', '?'],
    ['.', '.', '?', '.', '?', '.', '?', '.', '.'] ]

/-- `pattern.replace("?", mark)`: substitute the mark's character for each
`?` of a winning pattern. -/
def patternFor (p : List Char) (m : Mark) : List Char :=
  p.map fun c => if c == '?' then m.char else c

/-- Semantics of `re.match(p, s)` for a pattern `p` made only of literal
characters and `.`: the pattern must match a prefix of `s`, where `.`
matches any character except newline. -/
def reLitMatch : List Char → List Char → Bool
  | [], _ => true
  | _ :: _, [] => false
  | pc :: ps, cc :: cs =>
      (if pc == '.' then cc != '\n' else cc == pc) && reLitMatch ps cs

/-- The `GameState` dataclass: a grid plus the starting mark (validation in
`__post_init__` is modelled separately by `mkGameState`). -/
structure GameState where
  grid : Grid
  starting_mark : Mark := .CROSS
deriving DecidableEq, Repr

/-- `GameState.current_mark`: the starting mark while the counts are equal,
otherwise the other mark. -/
def GameState.current_mark (s : GameState) : Mark :=
  if s.grid.x_count == s.grid.o_count then s.starting_mark
  else s.starting_mark.other

/-- `GameState.game_not_started`: the grid has nine empty cells. -/
def GameState.game_not_started (s : GameState) : Bool :=
  s.grid.empty_count == 9

/-- `GameState.winner`: scan the winning patterns in declaration order and,
for each, the marks in declaration order; the first whose regex
(`pattern.replace("?", mark)`) matches the cell string wins. -/
def GameState.winner (s : GameState) : Option Mark :=
  WINNING_PATTERNS.findSome? fun p =>
    markMembers.find? fun m => reLitMatch (patternFor p m) s.grid.cells

/-- `GameState.tie`: no winner and no empty cell. -/
def GameState.tie (s : GameState) : Bool :=
  s.winner == none && s.grid.empty_count == 0

/-- `GameState.game_over`: a winner exists or the game is tied. -/
def GameState.game_over (s : GameState) : Bool :=
  s.winner != none || s.tie

/-- Ascending start positions of the matches of `re.finditer(r"\?", p)`
(the indices holding `?`), offset by the first argument. -/
def qPositionsAux : List Char → Nat → List Nat
  | [], _ => []
  | c :: cs, i =>
      if c == '?' then i :: qPositionsAux cs (i + 1) else qPositionsAux cs (i + 1)

/-- Indices of the `?` characters of a pattern, ascending. -/
def qPositions (p : List Char) : List Nat := qPositionsAux p 0

/-- `GameState.winning_cells`: same scan as `winner`; for the first matching
pattern/mark combination, return the pattern's `?` positions; `[]` if none
match. -/
def GameState.winning_cells (s : GameState) : List Nat :=
  match WINNING_PATTERNS.find? (fun p =>
      markMembers.any fun m => reLitMatch (patternFor p m) s.grid.cells) with
  | some p => qPositions p
  | none => []

/-- `validate_number_of_marks`: `abs(x_count - o_count) > 1` raises
`InvalidGameState`. -/
def validate_number_of_marks (g : Grid) : Except PyError Unit :=
  if 1 < ((g.x_count : Int) - (g.o_count : Int)).natAbs then
    .error .invalidGameState
  else .ok ()

/-- `validate_starting_mark`: the mark with the majority of cells must be
the starting mark. -/
def validate_starting_mark (g : Grid) (starting_mark : Mark) :
    Except PyError Unit :=
  if g.o_count < g.x_count then
    if starting_mark ≠ .CROSS then .error .invalidGameState else .ok ()
  else if g.x_count < g.o_count then
    if starting_mark ≠ .NAUGHT then .error .invalidGameState else .ok ()
  else .ok ()

/-- `validate_winner`: the winner's count must strictly exceed the other
count when the winner is the starting mark, and equal it otherwise. -/
def validate_winner (g : Grid) (starting_mark : Mark) (w : Option Mark) :
    Except PyError Unit :=
  match w with
  | some .CROSS =>
      if starting_mark = .CROSS then
        if g.x_count ≤ g.o_count then .error .invalidGameState else .ok ()
      else
        if g.x_count ≠ g.o_count then .error .invalidGameState else .ok ()
  | some .NAUGHT =>
      if starting_mark = .NAUGHT then
        if g.o_count ≤ g.x_count then .error .invalidGameState else .ok ()
      else
        if g.o_count ≠ g.x_count then .error .invalidGameState else .ok ()
  | none => .ok ()

/-- `validate_game_state`: number of marks, then starting mark, then winner. -/
def validate_game_state (s : GameState) : Except PyError Unit := do
  let _ ← validate_number_of_marks s.grid
  let _ ← validate_starting_mark s.grid s.starting_mark
  validate_winner s.grid s.starting_mark s.winner

/-- Construction of a `GameState` (`GameState(grid, starting_mark)`), which
runs `validate_game_state` in `__post_init__`. -/
def mkGameState (g : Grid) (starting_mark : Mark) : Except PyError GameState :=
  (validate_game_state ⟨g, starting_mark⟩).map fun _ => ⟨g, starting_mark⟩

/-- A `GameState` that Python would have allowed to be constructed. -/
def ValidGameState (s : GameState) : Prop := validate_game_state s = .ok ()

/-- The `Move` dataclass. -/
structure Move where
  mark : Mark
  cell_index : Nat
  before_state : GameState
  after_state : GameState
deriving DecidableEq, Repr

/-- `GameState.make_move_to`: `self.grid.cells[index]` (an `IndexError` when
out of range), an `InvalidMove` when the cell is not a space, and otherwise
a `Move` whose after state is built from
`cells[:index] + current_mark + cells[index+1:]` — with the `Grid` and
`GameState` constructors re-running their validators. -/
def GameState.make_move_to (s : GameState) (index : Nat) :
    Except PyError Move :=
  match s.grid.cells[index]? with
  | none => .error .indexError
  | some c =>
      if c ≠ ' ' then .error .invalidMove
      else do
        let g ← mkGrid
          (s.grid.cells.take index ++
            s.current_mark.char :: s.grid.cells.drop (index + 1))
        let after ← mkGameState g s.starting_mark
        .ok { mark := s.current_mark, cell_index := index,
              before_state := s, after_state := after }

/-- Ascending start positions of the matches of `re.finditer(r"\s", cells)`
(the whitespace indices), offset by the first argument. -/
def wsIndicesAux : List Char → Nat → List Nat
  | [], _ => []
  | c :: cs, i =>
      if isPySpace c then i :: wsIndicesAux cs (i + 1)
      else wsIndicesAux cs (i + 1)

/-- Whitespace indices of a cell string, ascending. -/
def wsIndices (cells : List Char) : List Nat := wsIndicesAux cells 0

/-- The `moves.append(...)` loop of `possible_moves`: one `make_move_to` per
whitespace index, with a raised exception propagating out. -/
def collectMoves (s : GameState) : List Nat → Except PyError (List Move)
  | [] => .ok []
  | i :: is => do
      let m ← s.make_move_to i
      let ms ← collectMoves s is
      .ok (m :: ms)

/-- `GameState.possible_moves`: the empty list when the game is over,
otherwise one `make_move_to` per whitespace position of the cell string. -/
def GameState.possible_moves (s : GameState) : Except PyError (List Move) :=
  if s.game_over then .ok [] else collectMoves s (wsIndices s.grid.cells)

/-- `GameState.evaluate_score`: requires `game_over` (otherwise
`UnknownGameScore`); 0 on a tie, 1 when the winner is the given mark,
-1 otherwise. -/
def GameState.evaluate_score (s : GameState) (mark : Mark) :
    Except PyError Int :=
  if s.game_over then
    if s.tie then .ok 0
    else if s.winner == some mark then .ok 1
    else .ok (-1)
  else .error .unknownGameScore

/-- Formalisation of the claim's wording of the winner rule: a pattern/mark
combination matches when the pattern's three pinned (`?`) positions all hold
that mark. -/
def pinnedHolds (p : List Char) (m : Mark) (cells : List Char) : Bool :=
  (qPositions p).all fun i => cells[i]? == some m.char

/-- Winner according to the claim's wording: first pattern/mark combination
(patterns in declaration order, marks in order CROSS, NAUGHT) whose three
pinned positions all hold the mark. -/
def specWinner (s : GameState) : Option Mark :=
  WINNING_PATTERNS.findSome? fun p =>
    markMembers.find? fun m => pinnedHolds p m s.grid.cells

/-- Winning cells according to the claim's wording: the pinned positions of
the first matching pattern, `[]` when no combination matches. -/
def specWinningCells (s : GameState) : List Nat :=
  match WINNING_PATTERNS.find? (fun p =>
      markMembers.any fun m => pinnedHolds p m s.grid.cells) with
  | some p => qPositions p
  | none => []

/-- Propositional reading of one character step of `reLitMatch`: a `.` in
the pattern requires a non-newline cell, any other pattern character
requires that exact cell. -/
def CharOk (pc cc : Char) : Prop := if pc = '.' then cc ≠ '\n' else cc = pc

instance (g : Grid) : Decidable (ValidGrid g) := by
  unfold ValidGrid; infer_instance

instance (s : GameState) : Decidable (ValidGameState s) := by
  unfold ValidGameState; infer_instance

@[simp] theorem exceptBind_ok {α β ε : Type} (a : α) (f : α → Except ε β) :
    (Except.ok a >>= f) = f a := rfl

@[simp] theorem exceptBind_error {α β ε : Type} (e : ε) (f : α → Except ε β) :
    ((Except.error e : Except ε α) >>= f) = .error e := rfl

@[simp] theorem exceptMap_ok {α β ε : Type} (a : α) (f : α → β) :
    (Except.ok a : Except ε α).map f = .ok (f a) := rfl

@[simp] theorem exceptMap_error {α β ε : Type} (e : ε) (f : α → β) :
    (Except.error e : Except ε α).map f = .error e := rfl

/-- A mark's `other` is never the mark itself. -/
theorem Mark.other_ne (m : Mark) : m.other ≠ m := by cases m <;> decide

/-- A state with a winner is not tied. -/
theorem tie_eq_false_of_winner {s : GameState} {w : Mark}
    (h : s.winner = some w) : s.tie = false := by
  simp [GameState.tie, h]

/-- A state with a winner is over. -/
theorem game_over_of_winner {s : GameState} {w : Mark}
    (h : s.winner = some w) : s.game_over = true := by
  simp [GameState.game_over, h]

/-- A valid game state has mark counts differing by at most one. -/
theorem count_diff_le_one_of_valid {s : GameState} (h : ValidGameState s) :
    ((s.grid.x_count : Int) - (s.grid.o_count : Int)).natAbs ≤ 1 := by
  by_contra hgt
  have h1 : validate_number_of_marks s.grid = .error .invalidGameState := by
    simp only [validate_number_of_marks]
    rw [if_pos (by omega)]
  simp only [ValidGameState, validate_game_state, h1, exceptBind_error] at h
  exact Except.noConfusion h

/-- C6: constructing a GameState whose grid has `x_count - o_count > 1` or
`< -1` always fails with `InvalidGameState`, and every observable (validated)
GameState has counts differing by at most one. -/
theorem claimC6_mark_count_validation :
    (∀ (g : Grid) (m : Mark),
      1 < ((g.x_count : Int) - (g.o_count : Int)).natAbs →
        mkGameState g m = .error .invalidGameState) ∧
    (∀ s : GameState, ValidGameState s →
      ((s.grid.x_count : Int) - (s.grid.o_count : Int)).natAbs ≤ 1) := by
  constructor
  · intro g m h
    simp only [mkGameState, validate_game_state, validate_number_of_marks]
    rw [if_pos h]
    rfl
  · intro s h
    exact count_diff_le_one_of_valid h

/-- C6 witness: the all-X first row exceeds the bound and is rejected, and a
concrete validated state satisfies the bound. -/
theorem claimC6_witness :
    mkGameState ⟨"XXX      ".toList⟩ .CROSS = .error .invalidGameState ∧
    (((GameState.mk ⟨"XO       ".toList⟩ .CROSS).grid.x_count : Int) -
        ((GameState.mk ⟨"XO       ".toList⟩ .CROSS).grid.o_count : Int)).natAbs ≤ 1 := by
  refine ⟨claimC6_mark_count_validation.1 ⟨"XXX      ".toList⟩ .CROSS (by decide),
    claimC6_mark_count_validation.2 (GameState.mk ⟨"XO       ".toList⟩ .CROSS) (by decide)⟩

/-- C5: `evaluate_score` fails with `UnknownGameScore` exactly when the state
is not over; on a tie it returns 0, when the given mark is the winner it
returns 1, and when the other mark is the winner it returns -1. -/
theorem claimC5_evaluate_score (s : GameState) (mark : Mark) :
    (s.evaluate_score mark = .error .unknownGameScore ↔ s.game_over = false) ∧
    (s.tie = true → s.evaluate_score mark = .ok 0) ∧
    (s.winner = some mark → s.evaluate_score mark = .ok 1) ∧
    (s.winner = some mark.other → s.evaluate_score mark = .ok (-1)) := by
  refine ⟨?_, ?_, ?_, ?_⟩
  · unfold GameState.evaluate_score
    cases hgo : s.game_over with
    | true =>
        simp only [if_pos rfl, if_true]
        constructor
        · intro h
          split at h <;> simp_all
          split at h <;> simp_all
        · intro h
          cases h
    | false => simp
  · intro ht
    have hgo : s.game_over = true := by simp [GameState.game_over, ht]
    simp [GameState.evaluate_score, hgo, ht]
  · intro hw
    have hgo := game_over_of_winner hw
    have ht := tie_eq_false_of_winner hw
    simp [GameState.evaluate_score, hgo, ht, hw]
  · intro hw
    have hgo := game_over_of_winner hw
    have ht := tie_eq_false_of_winner hw
    have hne : (some mark.other == some mark) = false := by
      cases mark <;> decide
    simp [GameState.evaluate_score, hgo, ht, hw, hne]

/-- C5 witness: a concrete won state scores 1 for the winner and -1 for the
loser, and a concrete ongoing state fails with `UnknownGameScore`. -/
theorem claimC5_witness :
    (GameState.mk ⟨"XXXOO    ".toList⟩ .CROSS).evaluate_score .CROSS = .ok 1 ∧
    (GameState.mk ⟨"XXXOO    ".toList⟩ .CROSS).evaluate_score .NAUGHT = .ok (-1) ∧
    (GameState.mk ⟨"XO       ".toList⟩ .CROSS).evaluate_score .CROSS
      = .error .unknownGameScore := by
  refine ⟨(claimC5_evaluate_score _ .CROSS).2.2.1 (by decide),
    (claimC5_evaluate_score _ .NAUGHT).2.2.2 (by decide),
    ((claimC5_evaluate_score _ .CROSS).1).2 (by decide)⟩

/-- C3 counterexample: on the fully constructible empty-board state, the
out-of-range index 9 makes `make_move_to` fail with Python's `IndexError`
(string indexing), not with `InvalidMove` as the claim states. -/
theorem claimC3_counterexample :
    validate_grid ⟨List.replicate 9 ' '⟩ = .ok () ∧
    validate_game_state ⟨⟨List.replicate 9 ' '⟩, .CROSS⟩ = .ok () ∧
    (GameState.mk ⟨List.replicate 9 ' '⟩ .CROSS).make_move_to 9
      = .error .indexError ∧
    (Except.error .indexError : Except PyError Move)
      ≠ .error .invalidMove := by
  decide

/-- C3 amended: `make_move_to` requires an in-range empty cell; an in-range
occupied (non-space) cell fails with `InvalidMove`, while an index at or
beyond the end of the cell string fails with `IndexError` instead. -/
theorem claimC3_make_move_to_errors (s : GameState) (i : Nat) :
    (s.grid.cells.length ≤ i → s.make_move_to i = .error .indexError) ∧
    (∀ c, s.grid.cells[i]? = some c → c ≠ ' ' →
      s.make_move_to i = .error .invalidMove) := by
  constructor
  · intro h
    unfold GameState.make_move_to
    rw [List.getElem?_eq_none h]
  · intro c hc hne
    unfold GameState.make_move_to
    rw [hc]
    simp [hne]

/-- C3 witness: index 10 on the empty board raises `IndexError`, and the
occupied cell 0 of a one-move state raises `InvalidMove`. -/
theorem claimC3_witness :
    (GameState.mk ⟨List.replicate 9 ' '⟩ .CROSS).make_move_to 10
      = .error .indexError ∧
    (GameState.mk ⟨"X        ".toList⟩ .CROSS).make_move_to 0
      = .error .invalidMove := by
  refine ⟨(claimC3_make_move_to_errors (GameState.mk ⟨List.replicate 9 ' '⟩ .CROSS) 10).1
      (by decide),
    (claimC3_make_move_to_errors (GameState.mk ⟨"X        ".toList⟩ .CROSS) 0).2
      'X' (by decide) (by decide)⟩

/-- C7 code-bug evidence: the nine-tab cell sequence contains no allowed
symbol (tab is not X, O, or space), yet `Grid` construction succeeds because
the validator's regex class `\s` accepts every whitespace character — against
the claim and `validate_grid`'s own docstring and error message. -/
theorem claimC7_code_bug_eval :
    mkGrid (List.replicate 9 '\t') = .ok ⟨List.replicate 9 '\t'⟩ ∧
    '\t' ∉ ['X', 'O', ' '] := by
  decide

/-- C8 code-bug evidence: for the successfully constructed nine-tab grid,
`x_count + o_count + empty_count` is 0, not 9. -/
theorem claimC8_code_bug_eval :
    mkGrid (List.replicate 9 '\t') = .ok ⟨List.replicate 9 '\t'⟩ ∧
    (Grid.mk (List.replicate 9 '\t')).x_count
      + (Grid.mk (List.replicate 9 '\t')).o_count
      + (Grid.mk (List.replicate 9 '\t')).empty_count = 0 := by
  decide

/-- C1 counterexample: the state with cells "XXX\nOO   " is fully
constructible (the validator's `\s` admits the newline), its first row holds
three crosses — so the claim's pinned-positions rule names CROSS the winner —
yet the code's regex winner detection returns no winner, because `.` does not
match a newline in the unpinned cells. -/
theorem claimC1_counterexample :
    validate_grid ⟨"XXX\nOO   ".toList⟩ = .ok () ∧
    validate_game_state ⟨⟨"XXX\nOO   ".toList⟩, .CROSS⟩ = .ok () ∧
    specWinner ⟨⟨"XXX\nOO   ".toList⟩, .CROSS⟩ = some .CROSS ∧
    (GameState.mk ⟨"XXX\nOO   ".toList⟩ .CROSS).winner = none ∧
    (GameState.mk ⟨"XXX\nOO   ".toList⟩ .CROSS).winning_cells = [] := by
  decide

/-- C2 counterexample: the state with cells "\tXO      " is fully
constructible and not over, but `possible_moves` raises `InvalidMove`
instead of returning one move per empty cell: the `\s` scan offers the tab
cell to `make_move_to`, which rejects any non-space cell. -/
theorem claimC2_counterexample :
    validate_grid ⟨"\tXO      ".toList⟩ = .ok () ∧
    validate_game_state ⟨⟨"\tXO      ".toList⟩, .CROSS⟩ = .ok () ∧
    (GameState.mk ⟨"\tXO      ".toList⟩ .CROSS).game_over = false ∧
    (GameState.mk ⟨"\tXO      ".toList⟩ .CROSS).possible_moves
      = .error .invalidMove := by
  decide

/-- C4 counterexample: in the fully constructible already-won state
"XXX OO   " (CROSS started), cell 3 is empty and in range, yet
`make_move_to 3` fails with `InvalidGameState`: the after state "XXXOOO   "
has a CROSS winner with equal mark counts, which `validate_winner` rejects. -/
theorem claimC4_counterexample :
    validate_grid ⟨"XXX OO   ".toList⟩ = .ok () ∧
    validate_game_state ⟨⟨"XXX OO   ".toList⟩, .CROSS⟩ = .ok () ∧
    (GameState.mk ⟨"XXX OO   ".toList⟩ .CROSS).grid.cells[3]? = some ' ' ∧
    (GameState.mk ⟨"XXX OO   ".toList⟩ .CROSS).make_move_to 3
      = .error .invalidGameState := by
  decide

theorem markChar_ne_dot (m : Mark) : m.char ≠ '.' := by cases m <;> decide

theorem markChar_ne_newline (m : Mark) : m.char ≠ '\n' := by cases m <;> decide

theorem markChar_inj {m m' : Mark} (h : m.char = m'.char) : m = m' := by
  cases m <;> cases m' <;> first | rfl | exact absurd h (by decide)

theorem markChar_gridClass (m : Mark) : isGridClassChar m.char = true := by
  cases m <;> decide

theorem charOk_iff (pc cc : Char) :
    ((if pc == '.' then cc != '\n' else cc == pc) = true) ↔ CharOk pc cc := by
  by_cases h : pc = '.' <;> simp [CharOk, h]

/-- Characterisation of the literal-pattern regex matcher: the pattern fits
inside the string and every aligned character pair is compatible. -/
theorem reLitMatch_iff (p cs : List Char) :
    reLitMatch p cs = true ↔
      (p.length ≤ cs.length ∧
        ∀ (j : Nat) (pc cc : Char),
          p[j]? = some pc → cs[j]? = some cc → CharOk pc cc) := by
  induction p generalizing cs with
  | nil => simp [reLitMatch]
  | cons pc ps ih =>
      cases cs with
      | nil => simp [reLitMatch]
      | cons cc cs' =>
          simp only [reLitMatch, Bool.and_eq_true, ih, charOk_iff,
            List.length_cons]
          constructor
          · rintro ⟨h1, hlen, htail⟩
            refine ⟨by omega, ?_⟩
            intro j pcx ccx hp hc
            cases j with
            | zero =>
                rw [List.getElem?_cons_zero, Option.some.injEq] at hp hc
                rw [← hp, ← hc]
                exact h1
            | succ j =>
                rw [List.getElem?_cons_succ] at hp hc
                exact htail j pcx ccx hp hc
          · rintro ⟨hlen, hall⟩
            refine ⟨hall 0 pc cc (by simp) (by simp), by omega, ?_⟩
            intro j pcx ccx hp hc
            exact hall (j + 1) pcx ccx (by simpa using hp) (by simpa using hc)

/-- Every winning pattern has length nine and consists of `?` and `.` only. -/
theorem winning_patterns_wf :
    ∀ p ∈ WINNING_PATTERNS,
      p.length = 9 ∧ ∀ c ∈ p, c = '?' ∨ c = '.' := by
  decide

theorem qPositionsAux_mem (l : List Char) (k i : Nat) :
    i ∈ qPositionsAux l k ↔ ∃ j, l[j]? = some '?' ∧ i = k + j := by
  induction l generalizing k with
  | nil => simp [qPositionsAux]
  | cons c cs ih =>
      simp only [qPositionsAux]
      by_cases hc : c = '?'
      · simp only [hc, beq_self_eq_true, if_true, List.mem_cons, ih]
        constructor
        · rintro (rfl | ⟨j, hj, rfl⟩)
          · exact ⟨0, by simp, by omega⟩
          · exact ⟨j + 1, by simpa using hj, by omega⟩
        · rintro ⟨j, hj, rfl⟩
          cases j with
          | zero => left; omega
          | succ j =>
              right
              rw [List.getElem?_cons_succ] at hj
              exact ⟨j, hj, by omega⟩
      · rw [if_neg (by simpa using hc), ih]
        constructor
        · rintro ⟨j, hj, rfl⟩
          exact ⟨j + 1, by simpa using hj, by omega⟩
        · rintro ⟨j, hj, rfl⟩
          cases j with
          | zero =>
              rw [List.getElem?_cons_zero, Option.some.injEq] at hj
              exact absurd hj hc
          | succ j =>
              rw [List.getElem?_cons_succ] at hj
              exact ⟨j, hj, by omega⟩

theorem qPositions_mem (p : List Char) (i : Nat) :
    i ∈ qPositions p ↔ p[i]? = some '?' := by
  rw [qPositions, qPositionsAux_mem]
  constructor
  · rintro ⟨j, hj, rfl⟩
    simpa using hj
  · intro h
    exact ⟨i, h, by omega⟩

theorem wsIndicesAux_mem (l : List Char) (k i : Nat) :
    i ∈ wsIndicesAux l k ↔
      ∃ j c, l[j]? = some c ∧ isPySpace c = true ∧ i = k + j := by
  induction l generalizing k with
  | nil => simp [wsIndicesAux]
  | cons c cs ih =>
      simp only [wsIndicesAux]
      by_cases hc : isPySpace c = true
      · simp only [hc, if_true, List.mem_cons, ih]
        constructor
        · rintro (rfl | ⟨j, d, hj, hd, rfl⟩)
          · exact ⟨0, c, by simp, hc, by omega⟩
          · exact ⟨j + 1, d, by simpa using hj, hd, by omega⟩
        · rintro ⟨j, d, hj, hd, rfl⟩
          cases j with
          | zero => left; omega
          | succ j =>
              right
              rw [List.getElem?_cons_succ] at hj
              exact ⟨j, d, hj, hd, by omega⟩
      · rw [if_neg hc, ih]
        constructor
        · rintro ⟨j, d, hj, hd, rfl⟩
          exact ⟨j + 1, d, by simpa using hj, hd, by omega⟩
        · rintro ⟨j, d, hj, hd, rfl⟩
          cases j with
          | zero =>
              rw [List.getElem?_cons_zero, Option.some.injEq] at hj
              rw [hj] at hc
              exact absurd hd hc
          | succ j =>
              rw [List.getElem?_cons_succ] at hj
              exact ⟨j, d, hj, hd, by omega⟩

theorem wsIndices_mem (cells : List Char) (i : Nat) :
    i ∈ wsIndices cells ↔
      ∃ c, cells[i]? = some c ∧ isPySpace c = true := by
  rw [wsIndices, wsIndicesAux_mem]
  constructor
  · rintro ⟨j, c, hj, hc, rfl⟩
    exact ⟨c, by simpa using hj, hc⟩
  · rintro ⟨c, hc, hs⟩
    exact ⟨i, c, hc, hs, by omega⟩

theorem wsIndicesAux_ge (l : List Char) (k : Nat) :
    ∀ i ∈ wsIndicesAux l k, k ≤ i := by
  induction l generalizing k with
  | nil => simp [wsIndicesAux]
  | cons c cs ih =>
      intro i hi
      simp only [wsIndicesAux] at hi
      by_cases hc : isPySpace c = true
      · rw [if_pos hc] at hi
        rcases List.mem_cons.mp hi with rfl | hi
        · exact Nat.le_refl i
        · exact Nat.le_of_succ_le (ih (k + 1) i hi)
      · rw [if_neg hc] at hi
        exact Nat.le_of_succ_le (ih (k + 1) i hi)

theorem wsIndicesAux_sorted (l : List Char) (k : Nat) :
    List.Pairwise (· < ·) (wsIndicesAux l k) := by
  induction l generalizing k with
  | nil => simp [wsIndicesAux]
  | cons c cs ih =>
      simp only [wsIndicesAux]
      by_cases hc : isPySpace c = true
      · rw [if_pos hc]
        exact List.Pairwise.cons
          (fun i hi => Nat.lt_of_succ_le (wsIndicesAux_ge cs (k + 1) i hi))
          (ih (k + 1))
      · rw [if_neg hc]
        exact ih (k + 1)

theorem wsIndices_sorted (cells : List Char) :
    List.Pairwise (· < ·) (wsIndices cells) :=
  wsIndicesAux_sorted cells 0

/-- Matching a winning pattern for a mark means: the string is at least nine
characters long, the pinned positions hold the mark's character, and the
unpinned positions do not hold a newline. -/
theorem reTest_iff {p : List Char} (hp : p ∈ WINNING_PATTERNS) (m : Mark)
    (cells : List Char) :
    reLitMatch (patternFor p m) cells = true ↔
      (9 ≤ cells.length ∧
        (∀ i : Nat, p[i]? = some '?' → cells[i]? = some m.char) ∧
        (∀ (i : Nat) (c : Char),
          p[i]? = some '.' → cells[i]? = some c → c ≠ '\n')) := by
  obtain ⟨hlen, hchars⟩ := winning_patterns_wf p hp
  rw [reLitMatch_iff]
  simp only [patternFor, List.length_map, hlen]
  constructor
  · rintro ⟨h9, hall⟩
    refine ⟨h9, ?_, ?_⟩
    · intro i hqi
      have hi9 : i < 9 := by
        have h := (List.getElem?_eq_some_iff.mp hqi).1
        omega
      have hic : i < cells.length := Nat.lt_of_lt_of_le hi9 h9
      have hpi : (p.map fun c => if c == '?' then m.char else c)[i]?
          = some m.char := by
        rw [List.getElem?_map, hqi]
        simp
      have hco := hall i m.char cells[i] hpi (List.getElem?_eq_getElem hic)
      rw [CharOk, if_neg (markChar_ne_dot m)] at hco
      rw [List.getElem?_eq_getElem hic, hco]
    · intro i c hdi hc
      have hpi : (p.map fun c => if c == '?' then m.char else c)[i]?
          = some '.' := by
        rw [List.getElem?_map, hdi]
        simp
      have hco := hall i '.' c hpi hc
      rwa [CharOk, if_pos rfl] at hco
  · rintro ⟨h9, hq, hd⟩
    refine ⟨h9, ?_⟩
    intro j pc cc hpj hcj
    rw [List.getElem?_map] at hpj
    cases hpj0 : p[j]? with
    | none => rw [hpj0] at hpj; cases hpj
    | some pc0 =>
        rw [hpj0, Option.map_some'] at hpj
        have hmem : pc0 ∈ p := List.mem_iff_getElem?.mpr ⟨j, hpj0⟩
        rcases hchars pc0 hmem with rfl | rfl
        · have hpc : pc = m.char := by
            rw [← Option.some.injEq, ← hpj]
            simp
          subst hpc
          rw [CharOk, if_neg (markChar_ne_dot m)]
          have := hq j hpj0
          rw [hcj, Option.some.injEq] at this
          exact this
        · have hpc : pc = '.' := by
            rw [← Option.some.injEq, ← hpj]
            simp
          subst hpc
          rw [CharOk, if_pos rfl]
          exact hd j cc hpj0 hcj

theorem mark_mem_markMembers (m : Mark) : m ∈ markMembers := by
  cases m <;> decide

/-- The code's winner scan finds nothing exactly when no pattern/mark
combination matches. -/
theorem winner_eq_none_iff (s : GameState) :
    s.winner = none ↔ ∀ p ∈ WINNING_PATTERNS, ∀ m : Mark,
      reLitMatch (patternFor p m) s.grid.cells = false := by
  unfold GameState.winner
  rw [List.findSome?_eq_none_iff]
  constructor
  · intro h p hp m
    have hfind := h p hp
    rw [List.find?_eq_none] at hfind
    have := hfind m (mark_mem_markMembers m)
    simpa using this
  · intro h p hp
    rw [List.find?_eq_none]
    intro m _
    simp [h p hp m]

/-- A found winner comes with a matching pattern. -/
theorem exists_match_of_winner_eq_some {s : GameState} {w : Mark}
    (h : s.winner = some w) :
    ∃ p ∈ WINNING_PATTERNS, reLitMatch (patternFor p w) s.grid.cells = true := by
  unfold GameState.winner at h
  obtain ⟨p, hp, hfind⟩ := List.exists_of_findSome?_eq_some h
  have hpred := List.find?_some hfind
  exact ⟨p, hp, by simpa using hpred⟩

/-- The shape of a validated cell string: length nine, or length ten with a
trailing newline. -/
theorem valid_grid_length {g : Grid} (h : ValidGrid g) :
    g.cells.length = 9 ∨ (g.cells.length = 10 ∧ g.cells[9]? = some '\n') := by
  rw [ValidGrid, validate_grid] at h
  split at h
  case isFalse => cases h
  case isTrue hacc =>
    simp only [gridPatternAccepts, Bool.or_eq_true, Bool.and_eq_true,
      beq_iff_eq] at hacc
    rcases hacc with ⟨h9, _⟩ | ⟨⟨h10, _⟩, hlast⟩
    · left; exact h9
    · right
      refine ⟨h10, ?_⟩
      rw [List.getLast?_eq_getElem?, h10] at hlast
      exact hlast

/-- The first nine characters of a validated cell string are in the class
`[\sXO]`. -/
theorem valid_grid_class {g : Grid} (h : ValidGrid g) :
    ∀ (j : Nat) (c : Char), j < 9 → g.cells[j]? = some c →
      isGridClassChar c = true := by
  rw [ValidGrid, validate_grid] at h
  split at h
  case isFalse => cases h
  case isTrue hacc =>
    simp only [gridPatternAccepts, Bool.or_eq_true, Bool.and_eq_true,
      beq_iff_eq] at hacc
    intro j c hj hc
    rcases hacc with ⟨_, hall⟩ | ⟨⟨_, hall⟩, _⟩
    · rw [List.all_eq_true] at hall
      exact hall c (List.mem_iff_getElem?.mpr ⟨j, hc⟩)
    · rw [List.all_eq_true] at hall
      refine hall c (List.mem_iff_getElem?.mpr ⟨j, ?_⟩)
      rw [List.getElem?_take, if_pos hj]
      exact hc

/-- The Python slice-splice `cells[:i] + c + cells[i+1:]` is `List.set` for
an in-range index. -/
theorem take_cons_drop_eq_set {l : List Char} {i : Nat} (h : i < l.length)
    (c : Char) : l.take i ++ c :: l.drop (i + 1) = l.set i c := by
  rw [List.set_eq_take_append_cons_drop, if_pos h]

/-- Writing a mark over a space adds one to that mark's count and leaves the
other mark's count unchanged. -/
theorem count_after_write {l : List Char} {i : Nat}
    (hi : l[i]? = some ' ') (m : Mark) :
    (l.set i m.char).count m.char = l.count m.char + 1 ∧
    (l.set i m.char).count m.other.char = l.count m.other.char := by
  obtain ⟨hlt, hval⟩ := List.getElem?_eq_some_iff.mp hi
  constructor
  · rw [List.count_set _ _ _ _ hlt, hval]
    have h1 : ((' ' : Char) == m.char) = false := by cases m <;> decide
    have h2 : (m.char == m.char) = true := by simp
    rw [h1, h2]
    simp
  · rw [List.count_set _ _ _ _ hlt, hval]
    have h1 : ((' ' : Char) == m.other.char) = false := by cases m <;> decide
    have h2 : (m.char == m.other.char) = false := by cases m <;> decide
    rw [h1, h2]
    simp

/-- Writing a space's count is untouched by characters other than space; here
specialised: writing a mark over a space removes one space. -/
theorem space_count_after_write {l : List Char} {i : Nat}
    (hi : l[i]? = some ' ') (m : Mark) :
    (l.set i m.char).count ' ' + 1 = l.count ' ' := by
  obtain ⟨hlt, hval⟩ := List.getElem?_eq_some_iff.mp hi
  have hmem : (' ' : Char) ∈ l := List.mem_iff_getElem?.mpr ⟨i, hi⟩
  have hcnt : 1 ≤ l.count ' ' := List.one_le_count_iff.mpr hmem
  rw [List.count_set _ _ _ _ hlt, hval]
  have h1 : ((' ' : Char) == ' ') = true := by decide
  have h2 : (m.char == ' ') = false := by cases m <;> decide
  rw [h1, h2]
  simp only [Bool.false_eq_true, if_true, if_false]
  omega

theorem validate_game_state_ok_iff (s : GameState) :
    validate_game_state s = .ok () ↔
      (validate_number_of_marks s.grid = .ok () ∧
        validate_starting_mark s.grid s.starting_mark = .ok () ∧
        validate_winner s.grid s.starting_mark s.winner = .ok ()) := by
  unfold validate_game_state
  cases h1 : validate_number_of_marks s.grid with
  | error e => simp [h1]
  | ok u =>
      cases u
      cases h2 : validate_starting_mark s.grid s.starting_mark with
      | error e => simp [h2]
      | ok u => cases u; simp [h2]

theorem validate_number_ok_iff (g : Grid) :
    validate_number_of_marks g = .ok () ↔
      ((g.x_count : Int) - (g.o_count : Int)).natAbs ≤ 1 := by
  constructor
  · intro h
    by_contra hgt
    rw [validate_number_of_marks, if_pos (by omega)] at h
    cases h
  · intro h
    rw [validate_number_of_marks, if_neg (by omega)]

theorem validate_starting_ok_iff (g : Grid) (st : Mark) :
    validate_starting_mark g st = .ok () ↔
      ((g.o_count < g.x_count → st = .CROSS) ∧
        (g.x_count < g.o_count → st = .NAUGHT)) := by
  unfold validate_starting_mark
  by_cases h1 : g.o_count < g.x_count
  · rw [if_pos h1]
    by_cases h2 : st = .CROSS
    · rw [if_neg (not_not_intro h2)]
      exact ⟨fun _ => ⟨fun _ => h2, fun hlt => absurd hlt (by omega)⟩,
        fun _ => rfl⟩
    · rw [if_pos h2]
      exact ⟨fun h => absurd h (by simp), fun hr => absurd (hr.1 h1) h2⟩
  · rw [if_neg h1]
    by_cases h3 : g.x_count < g.o_count
    · rw [if_pos h3]
      by_cases h2 : st = .NAUGHT
      · rw [if_neg (not_not_intro h2)]
        exact ⟨fun _ => ⟨fun hlt => absurd hlt h1, fun _ => h2⟩,
          fun _ => rfl⟩
      · rw [if_pos h2]
        exact ⟨fun h => absurd h (by simp), fun hr => absurd (hr.2 h3) h2⟩
    · rw [if_neg h3]
      exact ⟨fun _ => ⟨fun h => absurd h h1, fun h => absurd h h3⟩,
        fun _ => rfl⟩

/-- Overwriting a space with a class character keeps the grid regex happy. -/
theorem gridPatternAccepts_set {l : List Char} {i : Nat} {c : Char}
    (h : gridPatternAccepts l = true) (hi : l[i]? = some ' ')
    (hc : isGridClassChar c = true) :
    gridPatternAccepts (l.set i c) = true := by
  have hlt : i < l.length := (List.getElem?_eq_some_iff.mp hi).1
  simp only [gridPatternAccepts, Bool.or_eq_true, Bool.and_eq_true,
    beq_iff_eq] at h ⊢
  rcases h with ⟨h9, hall⟩ | ⟨⟨h10, hall⟩, hlast⟩
  · left
    refine ⟨by simp [h9], ?_⟩
    rw [List.all_eq_true] at hall ⊢
    intro x hx
    rcases List.mem_or_eq_of_mem_set hx with hx | rfl
    · exact hall x hx
    · exact hc
  · right
    have hl9 : l[9]? = some '\n' := by
      rw [List.getLast?_eq_getElem?, h10] at hlast
      exact hlast
    have hi9 : i ≠ 9 := by
      intro hieq
      rw [hieq, hl9] at hi
      simp at hi
    refine ⟨⟨by simp [h10], ?_⟩, ?_⟩
    · rw [List.all_eq_true] at hall ⊢
      intro x hx
      obtain ⟨j, hj⟩ := List.mem_iff_getElem?.mp hx
      rw [List.getElem?_take] at hj
      by_cases hj9 : j < 9
      · rw [if_pos hj9] at hj
        by_cases hij : i = j
        · subst hij
          rw [List.getElem?_set_self hlt, Option.some.injEq] at hj
          rw [← hj]
          exact hc
        · rw [List.getElem?_set_ne hij] at hj
          refine hall x (List.mem_iff_getElem?.mpr ⟨j, ?_⟩)
          rw [List.getElem?_take, if_pos hj9]
          exact hj
      · rw [if_neg hj9] at hj
        cases hj
    · rw [List.getLast?_eq_getElem?, List.length_set, h10,
        List.getElem?_set_ne hi9]
      exact hl9

/-- Writing the mark `M` over a space of a winner-free board either creates
no winner or makes `M` the (first-scan) winner: a pattern not through the
written cell would have matched before, and a pattern through it pins the
written character. -/
theorem winner_after_write (s' : GameState) {s : GameState} {i : Nat}
    (M : Mark)
    (hw : s.winner = none) (hi : s.grid.cells[i]? = some ' ')
    (hcells : s'.grid.cells = s.grid.cells.set i M.char) :
    s'.winner = none ∨ s'.winner = some M := by
  cases hwa : s'.winner with
  | none => exact Or.inl rfl
  | some w =>
      right
      obtain ⟨p, hp, hmatch⟩ := exists_match_of_winner_eq_some hwa
      rw [reTest_iff hp, hcells] at hmatch
      obtain ⟨hlen, hq, hd⟩ := hmatch
      by_cases hpin : p[i]? = some '?'
      · have hlt : i < s.grid.cells.length :=
          (List.getElem?_eq_some_iff.mp hi).1
        have h1 := hq i hpin
        rw [List.getElem?_set_self hlt, Option.some.injEq] at h1
        exact congrArg some (markChar_inj h1).symm
      · exfalso
        have hmatch_before : reLitMatch (patternFor p w) s.grid.cells = true := by
          rw [reTest_iff hp]
          refine ⟨by rwa [List.length_set] at hlen, ?_, ?_⟩
          · intro j hqj
            have hji : i ≠ j := fun h => hpin (h ▸ hqj)
            have h2 := hq j hqj
            rwa [List.getElem?_set_ne hji] at h2
          · intro j c hdj hcj
            by_cases hji : j = i
            · subst hji
              rw [hi, Option.some.injEq] at hcj
              rw [← hcj]
              decide
            · exact hd j c hdj
                (by rwa [List.getElem?_set_ne (fun h => hji h.symm)])
        have hnone := (winner_eq_none_iff s).mp hw p hp w
        rw [hmatch_before] at hnone
        cases hnone

theorem count_after_write_X {l : List Char} {i : Nat}
    (hi : l[i]? = some ' ') :
    (l.set i 'X').count 'X' = l.count 'X' + 1 ∧
    (l.set i 'X').count 'O' = l.count 'O' :=
  count_after_write hi .CROSS

theorem count_after_write_O {l : List Char} {i : Nat}
    (hi : l[i]? = some ' ') :
    (l.set i 'O').count 'O' = l.count 'O' + 1 ∧
    (l.set i 'O').count 'X' = l.count 'X' :=
  count_after_write hi .NAUGHT

/-- After writing the current mark over an empty cell of a validated,
winner-free state, the resulting state passes `validate_game_state`. -/
theorem validate_after_write (s : GameState) (i : Nat)
    (hs : ValidGameState s) (hw : s.winner = none)
    (hi : s.grid.cells[i]? = some ' ') :
    ValidGameState
      ⟨⟨s.grid.cells.set i s.current_mark.char⟩, s.starting_mark⟩ := by
  obtain ⟨hnum, hst, -⟩ := (validate_game_state_ok_iff s).mp hs
  rw [validate_number_ok_iff] at hnum
  rw [validate_starting_ok_iff] at hst
  obtain ⟨hstc, hsto⟩ := hst
  simp only [Grid.x_count, Grid.o_count] at hnum hstc hsto
  have hcur : (s.grid.cells.count 'X' = s.grid.cells.count 'O' ∧
        s.current_mark = s.starting_mark) ∨
      (s.grid.cells.count 'X' ≠ s.grid.cells.count 'O' ∧
        s.current_mark = s.starting_mark.other) := by
    by_cases h : s.grid.x_count = s.grid.o_count
    · exact Or.inl ⟨h, by simp [GameState.current_mark, h]⟩
    · refine Or.inr ⟨h, ?_⟩
      rw [GameState.current_mark, if_neg (by simpa using h)]
  rcases hcur with ⟨hxo, hMst⟩ | ⟨hxo, hMst⟩
  · -- counts equal: current mark is the starting mark
    cases hstv : s.starting_mark with
    | CROSS =>
        have hcv : s.current_mark = .CROSS := by rw [hMst, hstv]
        rw [hcv]
        simp only [Mark.char]
        have e1 := (count_after_write_X hi).1
        have e2 := (count_after_write_X hi).2
        rw [ValidGameState, validate_game_state_ok_iff]
        refine ⟨?_, ?_, ?_⟩
        · rw [validate_number_ok_iff]
          simp only [Grid.x_count, Grid.o_count]
          omega
        · rw [validate_starting_ok_iff]
          simp only [Grid.x_count, Grid.o_count]
          exact ⟨fun _ => by trivial, fun hlt => absurd hlt (by omega)⟩
        · have hwa := winner_after_write
            ⟨⟨s.grid.cells.set i 'X'⟩, .CROSS⟩ .CROSS hw hi rfl
          rcases hwa with h | h
          · rw [h]
            rfl
          · rw [h]
            rw [validate_winner]
            rw [if_pos rfl, if_neg (by
              simp only [Grid.x_count, Grid.o_count]
              omega)]
    | NAUGHT =>
        have hcv : s.current_mark = .NAUGHT := by rw [hMst, hstv]
        rw [hcv]
        simp only [Mark.char]
        have e1 := (count_after_write_O hi).1
        have e2 := (count_after_write_O hi).2
        rw [ValidGameState, validate_game_state_ok_iff]
        refine ⟨?_, ?_, ?_⟩
        · rw [validate_number_ok_iff]
          simp only [Grid.x_count, Grid.o_count]
          omega
        · rw [validate_starting_ok_iff]
          simp only [Grid.x_count, Grid.o_count]
          exact ⟨fun hlt => absurd hlt (by omega), fun _ => by trivial⟩
        · have hwa := winner_after_write
            ⟨⟨s.grid.cells.set i 'O'⟩, .NAUGHT⟩ .NAUGHT hw hi rfl
          rcases hwa with h | h
          · rw [h]
            rfl
          · rw [h]
            rw [validate_winner]
            rw [if_pos rfl, if_neg (by
              simp only [Grid.x_count, Grid.o_count]
              omega)]
  · -- counts unequal by one: current mark is the answering mark
    have hcases : s.grid.cells.count 'O' < s.grid.cells.count 'X' ∨
        s.grid.cells.count 'X' < s.grid.cells.count 'O' := by omega
    rcases hcases with hlt | hlt
    · have hstv : s.starting_mark = .CROSS := hstc hlt
      have hcv : s.current_mark = .NAUGHT := by
        rw [hMst, hstv]
        rfl
      have hx1 : s.grid.cells.count 'X' = s.grid.cells.count 'O' + 1 := by
        omega
      rw [hcv, hstv]
      simp only [Mark.char]
      have e1 := (count_after_write_O hi).1
      have e2 := (count_after_write_O hi).2
      rw [ValidGameState, validate_game_state_ok_iff]
      refine ⟨?_, ?_, ?_⟩
      · rw [validate_number_ok_iff]
        simp only [Grid.x_count, Grid.o_count]
        omega
      · rw [validate_starting_ok_iff]
        simp only [Grid.x_count, Grid.o_count]
        exact ⟨fun h => absurd h (by omega), fun h => absurd h (by omega)⟩
      · have hwa := winner_after_write
          ⟨⟨s.grid.cells.set i 'O'⟩, .CROSS⟩ .NAUGHT hw hi rfl
        rcases hwa with h | h
        · rw [h]
          rfl
        · rw [h]
          rw [validate_winner]
          rw [if_neg (by simp), if_neg (by
            simp only [Grid.x_count, Grid.o_count]
            omega)]
    · have hstv : s.starting_mark = .NAUGHT := hsto hlt
      have hcv : s.current_mark = .CROSS := by
        rw [hMst, hstv]
        rfl
      have ho1 : s.grid.cells.count 'O' = s.grid.cells.count 'X' + 1 := by
        omega
      rw [hcv, hstv]
      simp only [Mark.char]
      have e1 := (count_after_write_X hi).1
      have e2 := (count_after_write_X hi).2
      rw [ValidGameState, validate_game_state_ok_iff]
      refine ⟨?_, ?_, ?_⟩
      · rw [validate_number_ok_iff]
        simp only [Grid.x_count, Grid.o_count]
        omega
      · rw [validate_starting_ok_iff]
        simp only [Grid.x_count, Grid.o_count]
        exact ⟨fun h => absurd h (by omega), fun h => absurd h (by omega)⟩
      · have hwa := winner_after_write
          ⟨⟨s.grid.cells.set i 'X'⟩, .NAUGHT⟩ .CROSS hw hi rfl
        rcases hwa with h | h
        · rw [h]
          rfl
        · rw [h]
          rw [validate_winner]
          rw [if_neg (by simp), if_neg (by
            simp only [Grid.x_count, Grid.o_count]
            omega)]

/-- Core success case of `make_move_to`: on a validated, winner-free state,
writing to an empty cell succeeds and produces exactly the expected `Move`. -/
theorem make_move_to_ok {s : GameState} {i : Nat}
    (hg : ValidGrid s.grid) (hs : ValidGameState s) (hw : s.winner = none)
    (hi : s.grid.cells[i]? = some ' ') :
    s.make_move_to i =
      .ok { mark := s.current_mark, cell_index := i, before_state := s,
            after_state := ⟨⟨s.grid.cells.set i s.current_mark.char⟩,
              s.starting_mark⟩ } := by
  have hlt : i < s.grid.cells.length := (List.getElem?_eq_some_iff.mp hi).1
  have hacc : gridPatternAccepts s.grid.cells = true := by
    rw [ValidGrid, validate_grid] at hg
    by_contra hno
    rw [if_neg hno] at hg
    cases hg
  have hacc' : gridPatternAccepts
      (s.grid.cells.set i s.current_mark.char) = true :=
    gridPatternAccepts_set hacc hi (markChar_gridClass _)
  have hmk : mkGrid (s.grid.cells.set i s.current_mark.char)
      = .ok ⟨s.grid.cells.set i s.current_mark.char⟩ := by
    rw [mkGrid, validate_grid, if_pos hacc']
    rfl
  have hva := validate_after_write s i hs hw hi
  rw [ValidGameState] at hva
  have hmkgs : mkGameState ⟨s.grid.cells.set i s.current_mark.char⟩
      s.starting_mark
      = .ok ⟨⟨s.grid.cells.set i s.current_mark.char⟩, s.starting_mark⟩ := by
    rw [mkGameState, hva]
    rfl
  unfold GameState.make_move_to
  rw [hi]
  simp only [take_cons_drop_eq_set hlt, hmk, hmkgs, exceptBind_ok]
  rw [if_neg (by simp)]

theorem mkGrid_ok_inv {cells : List Char} {g : Grid}
    (h : mkGrid cells = .ok g) : g = ⟨cells⟩ ∧ ValidGrid ⟨cells⟩ := by
  rw [mkGrid] at h
  cases hv : validate_grid ⟨cells⟩ with
  | error e => rw [hv, exceptMap_error] at h; cases h
  | ok u =>
      cases u
      rw [hv, exceptMap_ok] at h
      cases h
      exact ⟨rfl, hv⟩

theorem mkGameState_ok_inv {g : Grid} {st : Mark} {s' : GameState}
    (h : mkGameState g st = .ok s') :
    s' = ⟨g, st⟩ ∧ ValidGameState ⟨g, st⟩ := by
  rw [mkGameState] at h
  cases hv : validate_game_state ⟨g, st⟩ with
  | error e => rw [hv, exceptMap_error] at h; cases h
  | ok u =>
      cases u
      rw [hv, exceptMap_ok] at h
      cases h
      exact ⟨rfl, hv⟩

/-- Inversion of a successful `make_move_to`: the move is exactly the record
built by the code, the target cell held a space, and the after state passed
validation. -/
theorem make_move_to_ok_inv {s : GameState} {i : Nat} {m : Move}
    (h : s.make_move_to i = .ok m) :
    s.grid.cells[i]? = some ' ' ∧
    m = { mark := s.current_mark, cell_index := i, before_state := s,
          after_state := ⟨⟨s.grid.cells.take i ++
            s.current_mark.char :: s.grid.cells.drop (i + 1)⟩,
            s.starting_mark⟩ } ∧
    ValidGameState m.after_state ∧ ValidGrid m.after_state.grid := by
  unfold GameState.make_move_to at h
  split at h
  · cases h
  · rename_i c heq
    split at h
    · cases h
    · rename_i hsp
      have hceq : c = ' ' := by simpa using hsp
      subst hceq
      refine ⟨heq, ?_⟩
      cases hmg : mkGrid (s.grid.cells.take i ++
            s.current_mark.char :: s.grid.cells.drop (i + 1)) with
        | error e => rw [hmg, exceptBind_error] at h; cases h
        | ok g =>
            rw [hmg, exceptBind_ok] at h
            obtain ⟨rfl, hvg⟩ := mkGrid_ok_inv hmg
            cases hgs : mkGameState
                ⟨s.grid.cells.take i ++
                  s.current_mark.char :: s.grid.cells.drop (i + 1)⟩
                s.starting_mark with
            | error e => rw [hgs, exceptBind_error] at h; cases h
            | ok after =>
                rw [hgs, exceptBind_ok] at h
                obtain ⟨rfl, hvs⟩ := mkGameState_ok_inv hgs
                cases h
                exact ⟨rfl, hvs, hvg⟩

/-- After writing the current mark on an empty cell of a valid state, the
turn passes to the other mark. -/
theorem current_mark_after_write {s : GameState} {i : Nat}
    (hs : ValidGameState s) (hi : s.grid.cells[i]? = some ' ') :
    (GameState.mk ⟨s.grid.cells.set i s.current_mark.char⟩
      s.starting_mark).current_mark = s.current_mark.other := by
  obtain ⟨hnum, hst, -⟩ := (validate_game_state_ok_iff s).mp hs
  rw [validate_number_ok_iff] at hnum
  rw [validate_starting_ok_iff] at hst
  obtain ⟨hstc, hsto⟩ := hst
  simp only [Grid.x_count, Grid.o_count] at hnum hstc hsto
  have hcur : (s.grid.cells.count 'X' = s.grid.cells.count 'O' ∧
        s.current_mark = s.starting_mark) ∨
      (s.grid.cells.count 'X' ≠ s.grid.cells.count 'O' ∧
        s.current_mark = s.starting_mark.other) := by
    by_cases h : s.grid.x_count = s.grid.o_count
    · exact Or.inl ⟨h, by simp [GameState.current_mark, h]⟩
    · refine Or.inr ⟨h, ?_⟩
      rw [GameState.current_mark, if_neg (by simpa using h)]
  rcases hcur with ⟨hxo, hMst⟩ | ⟨hxo, hMst⟩
  · cases hstv : s.starting_mark with
    | CROSS =>
        have hcv : s.current_mark = .CROSS := by rw [hMst, hstv]
        rw [hcv]
        simp only [Mark.char]
        have e1 := (count_after_write_X hi).1
        have e2 := (count_after_write_X hi).2
        rw [GameState.current_mark]
        rw [if_neg (by
          simp only [Grid.x_count, Grid.o_count]
          simp only [beq_iff_eq]
          omega)]
    | NAUGHT =>
        have hcv : s.current_mark = .NAUGHT := by rw [hMst, hstv]
        rw [hcv]
        simp only [Mark.char]
        have e1 := (count_after_write_O hi).1
        have e2 := (count_after_write_O hi).2
        rw [GameState.current_mark]
        rw [if_neg (by
          simp only [Grid.x_count, Grid.o_count]
          simp only [beq_iff_eq]
          omega)]
  · have hcases : s.grid.cells.count 'O' < s.grid.cells.count 'X' ∨
        s.grid.cells.count 'X' < s.grid.cells.count 'O' := by omega
    rcases hcases with hlt | hlt
    · have hstv : s.starting_mark = .CROSS := hstc hlt
      have hcv : s.current_mark = .NAUGHT := by rw [hMst, hstv]; rfl
      have hx1 : s.grid.cells.count 'X' = s.grid.cells.count 'O' + 1 := by
        omega
      rw [hcv, hstv]
      simp only [Mark.char]
      have e1 := (count_after_write_O hi).1
      have e2 := (count_after_write_O hi).2
      rw [GameState.current_mark]
      rw [if_pos (by
        simp only [Grid.x_count, Grid.o_count]
        simp only [beq_iff_eq]
        omega)]
      rfl
    · have hstv : s.starting_mark = .NAUGHT := hsto hlt
      have hcv : s.current_mark = .CROSS := by rw [hMst, hstv]; rfl
      have ho1 : s.grid.cells.count 'O' = s.grid.cells.count 'X' + 1 := by
        omega
      rw [hcv, hstv]
      simp only [Mark.char]
      have e1 := (count_after_write_X hi).1
      have e2 := (count_after_write_X hi).2
      rw [GameState.current_mark]
      rw [if_pos (by
        simp only [Grid.x_count, Grid.o_count]
        simp only [beq_iff_eq]
        omega)]
      rfl

/-- C4 amended: on a state whose winner slot is still empty, `make_move_to`
on an in-range empty cell always succeeds: the move carries the current
mark, the after state has that mark written at the index with every other
cell unchanged and the same starting mark, and the before state is kept
as-is (the embedding is purely functional, mirroring the frozen dataclass). -/
theorem claimC4_make_move_frame (s : GameState) (i : Nat)
    (hg : ValidGrid s.grid) (hs : ValidGameState s) (hw : s.winner = none)
    (_hi9 : i < 9) (hc : s.grid.cells[i]? = some ' ') :
    s.make_move_to i =
      .ok { mark := s.current_mark, cell_index := i, before_state := s,
            after_state := ⟨⟨s.grid.cells.set i s.current_mark.char⟩,
              s.starting_mark⟩ } ∧
    (s.grid.cells.set i s.current_mark.char)[i]? = some s.current_mark.char ∧
    ∀ j : Nat, j ≠ i →
      (s.grid.cells.set i s.current_mark.char)[j]? = s.grid.cells[j]? := by
  refine ⟨make_move_to_ok hg hs hw hc, ?_, ?_⟩
  · exact List.getElem?_set_self (List.getElem?_eq_some_iff.mp hc).1
  · intro j hj
    exact List.getElem?_set_ne (fun h => hj h.symm)

/-- C4 witness: the very first move into the centre of the empty board. -/
theorem claimC4_witness :
    (GameState.mk ⟨List.replicate 9 ' '⟩ .CROSS).make_move_to 4
      = .ok { mark := .CROSS, cell_index := 4,
              before_state := GameState.mk ⟨List.replicate 9 ' '⟩ .CROSS,
              after_state := GameState.mk ⟨(List.replicate 9 ' ').set 4 'X'⟩
                .CROSS } := by
  have h := (claimC4_make_move_frame (GameState.mk ⟨List.replicate 9 ' '⟩ .CROSS)
    4 (by decide) (by decide) (by decide) (by decide) (by decide)).1
  rw [h]
  decide

/-- C10: whenever `make_move_to` succeeds on a validated state, the move's
mark is the current mark, the after state's current mark is the other mark,
and the current mark equals the starting mark exactly when the X and O
counts agree. -/
theorem claimC10_turn_alternation (s : GameState) (i : Nat) (m : Move)
    (hs : ValidGameState s) (h : s.make_move_to i = .ok m) :
    m.mark = s.current_mark ∧
    m.after_state.current_mark = s.current_mark.other ∧
    (s.current_mark = s.starting_mark ↔ s.grid.x_count = s.grid.o_count) := by
  obtain ⟨hc, hm, -, -⟩ := make_move_to_ok_inv h
  have hlt : i < s.grid.cells.length := (List.getElem?_eq_some_iff.mp hc).1
  refine ⟨by rw [hm], ?_, ?_⟩
  · rw [hm]
    have hset := take_cons_drop_eq_set hlt s.current_mark.char
    simp only [hset]
    exact current_mark_after_write hs hc
  · constructor
    · intro hcur
      by_contra hxo
      rw [GameState.current_mark, if_neg (by simpa using hxo)] at hcur
      exact Mark.other_ne _ hcur
    · intro hxo
      rw [GameState.current_mark, if_pos (by simpa using hxo)]

/-- C10 witness: after X's opening move on an empty board it is O's turn. -/
theorem claimC10_witness :
    (GameState.mk ⟨"X        ".toList⟩ .CROSS).current_mark
      = Mark.CROSS.other := by
  have hmv : (GameState.mk ⟨List.replicate 9 ' '⟩ .CROSS).make_move_to 0
      = .ok { mark := .CROSS, cell_index := 0,
              before_state := GameState.mk ⟨List.replicate 9 ' '⟩ .CROSS,
              after_state := GameState.mk ⟨"X        ".toList⟩ .CROSS } := by
    decide
  have h := claimC10_turn_alternation (GameState.mk ⟨List.replicate 9 ' '⟩
    .CROSS) 0 _ (by decide) hmv
  have h2 := h.2.1
  rw [(by decide : (GameState.mk ⟨List.replicate 9 ' '⟩ .CROSS).current_mark
    = .CROSS)] at h2
  exact h2

/-- The append loop of `possible_moves` succeeds when every listed index
yields a successful move, and returns them in the same order. -/
theorem collectMoves_ok {s : GameState} (is : List Nat)
    (h : ∀ i ∈ is, ∃ mv : Move,
      s.make_move_to i = .ok mv ∧ mv.cell_index = i) :
    ∃ ms, collectMoves s is = .ok ms ∧
      ms.map Move.cell_index = is ∧
      ∀ m ∈ ms, s.make_move_to m.cell_index = .ok m := by
  induction is with
  | nil => exact ⟨[], rfl, rfl, by simp⟩
  | cons i is ih =>
      obtain ⟨ms, hms, hmap, hall⟩ :=
        ih (fun j hj => h j (List.mem_cons_of_mem _ hj))
      obtain ⟨mv, hmv, hidx⟩ := h i (List.mem_cons_self i is)
      refine ⟨mv :: ms, ?_, ?_, ?_⟩
      · rw [collectMoves, hmv, exceptBind_ok, hms, exceptBind_ok]
      · simp [hmap, hidx]
      · intro m hm
        rcases List.mem_cons.mp hm with rfl | hm
        · rw [hidx]
          exact hmv
        · exact hall m hm

/-- C2 amended: for every validated GameState whose nine cells hold only the
symbols X, O and space (grids of the documented shape), `possible_moves` is
the empty list when the game is over, and otherwise returns exactly one
successful `make_move_to` move per empty cell, in ascending cell-index
order. -/
theorem claimC2_possible_moves (s : GameState)
    (hlen : s.grid.cells.length = 9)
    (hsym : ∀ c ∈ s.grid.cells, c = 'X' ∨ c = 'O' ∨ c = ' ')
    (hs : ValidGameState s) :
    ∃ ms, s.possible_moves = .ok ms ∧
      (s.game_over = true → ms = []) ∧
      (s.game_over = false →
        (ms.map Move.cell_index = wsIndices s.grid.cells ∧
          List.Pairwise (· < ·) (ms.map Move.cell_index) ∧
          (∀ i : Nat, i ∈ ms.map Move.cell_index ↔
            s.grid.cells[i]? = some ' ') ∧
          ∀ m ∈ ms, s.make_move_to m.cell_index = .ok m)) := by
  cases hgo : s.game_over with
  | true =>
      refine ⟨[], ?_, fun _ => rfl, ?_⟩
      · rw [GameState.possible_moves, if_pos hgo]
      · intro hfalse
        cases hfalse
  | false =>
      have hw : s.winner = none := by
        have hgo' := hgo
        simp only [GameState.game_over, Bool.or_eq_false_iff,
          bne_eq_false_iff_eq] at hgo'
        exact hgo'.1
      have hg : ValidGrid s.grid := by
        have hacc : gridPatternAccepts s.grid.cells = true := by
          rw [gridPatternAccepts]
          apply Bool.or_eq_true_iff.mpr
          left
          apply Bool.and_eq_true_iff.mpr
          refine ⟨by simp [hlen], ?_⟩
          rw [List.all_eq_true]
          intro c hc
          rcases hsym c hc with rfl | rfl | rfl <;> decide
        rw [ValidGrid, validate_grid, if_pos hacc]
      have hws : ∀ i ∈ wsIndices s.grid.cells,
          s.grid.cells[i]? = some ' ' := by
        intro i hi
        obtain ⟨c, hc, hsp⟩ := (wsIndices_mem _ i).mp hi
        rcases hsym c (List.mem_iff_getElem?.mpr ⟨i, hc⟩) with rfl | rfl | rfl
        · exact absurd hsp (by decide)
        · exact absurd hsp (by decide)
        · exact hc
      obtain ⟨ms, hms, hmap, hall⟩ := collectMoves_ok
        (wsIndices s.grid.cells)
        (fun i hi => ⟨_, make_move_to_ok hg hs hw (hws i hi), rfl⟩)
      refine ⟨ms, ?_, ?_, fun _ => ⟨hmap, ?_, ?_, hall⟩⟩
      · rw [GameState.possible_moves, if_neg (by rw [hgo]; simp)]
        exact hms
      · intro htrue
        cases htrue
      · rw [hmap]
        exact wsIndices_sorted _
      · intro i
        rw [hmap, wsIndices_mem]
        constructor
        · rintro ⟨c, hc, hsp⟩
          rcases hsym c (List.mem_iff_getElem?.mpr ⟨i, hc⟩) with rfl | rfl | rfl
          · exact absurd hsp (by decide)
          · exact absurd hsp (by decide)
          · exact hc
        · intro hc
          exact ⟨' ', hc, by decide⟩

/-- C2 witness: the one-move state "XO ... " is ongoing, and its seven
possible moves target exactly the seven empty cells in ascending order. -/
theorem claimC2_witness :
    ∃ ms, (GameState.mk ⟨"XO       ".toList⟩ .CROSS).possible_moves
        = .ok ms ∧
      ms.map Move.cell_index = [2, 3, 4, 5, 6, 7, 8] := by
  obtain ⟨ms, hok, -, hrest⟩ :=
    claimC2_possible_moves (GameState.mk ⟨"XO       ".toList⟩ .CROSS)
      (by decide) (by decide) (by decide)
  obtain ⟨hmap, -, -, -⟩ := hrest (by decide)
  refine ⟨ms, hok, ?_⟩
  rw [hmap]
  decide

theorem find?_congr_on {α : Type} (l : List α) (f g : α → Bool)
    (h : ∀ x ∈ l, f x = g x) : l.find? f = l.find? g := by
  induction l with
  | nil => rfl
  | cons a as ih =>
      have ha := h a (List.mem_cons_self a as)
      cases hg : g a with
      | true =>
          rw [List.find?_cons_of_pos _ (by rw [ha, hg]),
            List.find?_cons_of_pos _ hg]
      | false =>
          rw [List.find?_cons_of_neg _ (by rw [ha, hg]; simp),
            List.find?_cons_of_neg _ (by simp [hg]),
            ih (fun x hx => h x (List.mem_cons_of_mem _ hx))]

theorem findSome?_congr_on {α β : Type} (l : List α) (f g : α → Option β)
    (h : ∀ x ∈ l, f x = g x) : l.findSome? f = l.findSome? g := by
  induction l with
  | nil => rfl
  | cons a as ih =>
      rw [List.findSome?_cons, List.findSome?_cons,
        h a (List.mem_cons_self a as),
        ih (fun x hx => h x (List.mem_cons_of_mem _ hx))]

theorem any_congr_on {α : Type} (l : List α) (f g : α → Bool)
    (h : ∀ x ∈ l, f x = g x) : l.any f = l.any g := by
  induction l with
  | nil => rfl
  | cons a as ih =>
      simp only [List.any_cons, h a (List.mem_cons_self a as),
        ih (fun x hx => h x (List.mem_cons_of_mem _ hx))]

theorem pinnedHolds_iff (p : List Char) (m : Mark) (cells : List Char) :
    pinnedHolds p m cells = true ↔
      ∀ i : Nat, p[i]? = some '?' → cells[i]? = some m.char := by
  rw [pinnedHolds, List.all_eq_true]
  constructor
  · intro h i hqi
    have := h i ((qPositions_mem p i).mpr hqi)
    simpa using this
  · intro h i hi
    have := h i ((qPositions_mem p i).mp hi)
    simp [this]

/-- On a validated grid with no newline among the first nine cells, the
code's regex test coincides with the claim's pinned-positions test. -/
theorem reTest_eq_pinned {s : GameState} (hg : ValidGrid s.grid)
    (hnl : ∀ (j : Nat) (c : Char), j < 9 → s.grid.cells[j]? = some c →
      c ≠ '\n')
    {p : List Char} (hp : p ∈ WINNING_PATTERNS) (m : Mark) :
    reLitMatch (patternFor p m) s.grid.cells
      = pinnedHolds p m s.grid.cells := by
  obtain ⟨hlen, -⟩ := winning_patterns_wf p hp
  have h9 : 9 ≤ s.grid.cells.length := by
    rcases valid_grid_length hg with h | ⟨h, -⟩ <;> omega
  apply Bool.eq_iff_iff.mpr
  show reLitMatch (patternFor p m) s.grid.cells = true ↔
    pinnedHolds p m s.grid.cells = true
  rw [reTest_iff hp, pinnedHolds_iff]
  constructor
  · rintro ⟨-, hq, -⟩
    exact hq
  · intro hq
    refine ⟨h9, hq, ?_⟩
    intro i c hdi hci
    have hi9 : i < 9 := by
      have h := (List.getElem?_eq_some_iff.mp hdi).1
      omega
    exact hnl i c hi9 hci

/-- On a validated grid with no newline among the first nine cells, the
code's winner equals the claim's first-pinned-match winner. -/
theorem winner_eq_specWinner {s : GameState} (hg : ValidGrid s.grid)
    (hnl : ∀ (j : Nat) (c : Char), j < 9 → s.grid.cells[j]? = some c →
      c ≠ '\n') :
    s.winner = specWinner s := by
  rw [GameState.winner, specWinner]
  apply findSome?_congr_on
  intro p hp
  apply find?_congr_on
  intro m _
  exact reTest_eq_pinned hg hnl hp m

/-- Same for the winning cells. -/
theorem winning_cells_eq_spec {s : GameState} (hg : ValidGrid s.grid)
    (hnl : ∀ (j : Nat) (c : Char), j < 9 → s.grid.cells[j]? = some c →
      c ≠ '\n') :
    s.winning_cells = specWinningCells s := by
  rw [GameState.winning_cells, specWinningCells]
  rw [find?_congr_on WINNING_PATTERNS _ _ (fun p hp =>
    any_congr_on markMembers _ _ (fun m _ => reTest_eq_pinned hg hnl hp m))]

/-- C1 amended: on every GameState whose validated grid has no newline among
its nine cells, winner and winning_cells are computed by first pattern/mark
match (patterns in declaration order, marks in order CROSS then NAUGHT) of
the pinned-positions rule; and the concrete "XXX      " scenario behaves as
claimed. -/
theorem claimC1_winner_first_match :
    (∀ s : GameState, ValidGrid s.grid →
      (∀ (j : Nat) (c : Char), j < 9 → s.grid.cells[j]? = some c →
        c ≠ '\n') →
      (s.winner = specWinner s ∧ s.winning_cells = specWinningCells s)) ∧
    (GameState.mk ⟨"XXX      ".toList⟩ .CROSS).winner = some .CROSS ∧
    (GameState.mk ⟨"XXX      ".toList⟩ .CROSS).winning_cells = [0, 1, 2] ∧
    (GameState.mk ⟨"XXX      ".toList⟩ .CROSS).game_over = true := by
  refine ⟨fun s hg hnl =>
    ⟨winner_eq_specWinner hg hnl, winning_cells_eq_spec hg hnl⟩,
    by decide, by decide, by decide⟩

/-- A grid none of whose cells is a newline satisfies the positional
no-newline condition. -/
theorem no_newline_mem {s : GameState} (h : ∀ c ∈ s.grid.cells, c ≠ '\n') :
    ∀ (j : Nat) (c : Char), j < 9 → s.grid.cells[j]? = some c → c ≠ '\n' :=
  fun j c _ hc => h c (List.mem_iff_getElem?.mpr ⟨j, hc⟩)

/-- C1 witness: the regex winner scan and the pinned-positions rule agree on
a concrete won board. -/
theorem claimC1_witness :
    (GameState.mk ⟨"XXXOO    ".toList⟩ .CROSS).winner
        = specWinner (GameState.mk ⟨"XXXOO    ".toList⟩ .CROSS) ∧
    (GameState.mk ⟨"XXXOO    ".toList⟩ .CROSS).winning_cells
        = specWinningCells (GameState.mk ⟨"XXXOO    ".toList⟩ .CROSS) :=
  claimC1_winner_first_match.1 (GameState.mk ⟨"XXXOO    ".toList⟩ .CROSS)
    (by decide) (no_newline_mem (by decide))
